import Mathlib

/-!
Verification development for the Gemini call-orchestration subsystem of the
SUB-VPS repository.  The TypeScript services are shallowly embedded as pure
Lean functions:

* `executeWithRetry`    — GeminiRetryHandlerService.executeWithRetry
                          (src/services/gemini/geminiRetryHandler.service.ts);
                          the provider call is an oracle list of outcomes, the
                          random jitter is an oracle function, and the waits
                          actually performed are recorded in the result.
* `orchestrateApiCall`  — GeminiApiOrchestratorService.orchestrateApiCall
                          (geminiApiOrchestrator.service.ts); preparation and
                          retry-engine results are oracles, and the calls made
                          to the retry engine are recorded in a trace.
* `selectModel`         — the round-robin model selection of
                          GeminiApiService.executeApiCallLogic
                          (src/services/geminiApi.service.ts, lines 251-253).
* `processResponseText` — the text pipeline of
                          GeminiResponseHandlerService.processResponse
                          (geminiResponseHandler.service.ts): markdown fence
                          stripping followed by trailing-comma repair.
                          Strings are modelled as lists of characters.
* `getOrCreateOnce`     — GeminiContextCacheService.getOrCreateContext
                          (geminiContextCache.service.ts) observed over a full
                          sequential call: the SDK boundary is an oracle that
                          may throw (Except), and the in-flight promise map is
                          part of the state.
-/

namespace SubVps

/-! ### Retry engine: GeminiRetryHandlerService.executeWithRetry -/

/-- Whether `needle` is a prefix of `hay` (on character lists). -/
def isPrefixList (needle hay : List Char) : Bool :=
  match needle, hay with
  | [], _ => true
  | _ :: _, [] => false
  | a :: t1, b :: t2 => a == b && isPrefixList t1 t2

/-- Whether `needle` occurs contiguously inside `hay`. -/
def containsList (needle : List Char) : List Char → Bool
  | [] => isPrefixList needle []
  | hay@(_ :: t) => isPrefixList needle hay || containsList needle t

/-- `message.toLowerCase()` on the character list of the message. -/
def lowerList (message : String) : List Char :=
  message.toList.map Char.toLower

/-- JS `String.prototype.includes` of a needle in the lowercased message. -/
def containsSub (m : List Char) (needle : String) : Bool :=
  containsList needle.toList m

/-- Outcome of the inline error classification of `executeWithRetry`
(lines 141-173 of the retry handler). -/
structure ErrorClassification where
  shouldRetry : Bool
  invalidateCacheOnError : Bool
  is5xxError : Bool
deriving DecidableEq, Repr

/-- The if/else-if chain classifying `error.message.toLowerCase()` in
`executeWithRetry` (lines 162-173).  `shouldRetry` starts `true` and is set
`false` only in the blocked/safety branch. -/
def classifyGeminiError (message : String) : ErrorClassification :=
  let m := lowerList message
  if containsSub m "503" || containsSub m "500" ||
      containsSub m "unavailable" || containsSub m "internal" then
    ⟨true, false, true⟩
  else if containsSub m "cachedcontent not found" ||
      containsSub m "permission denied on cached content" ||
      containsSub m "cannot find cached content" then
    ⟨true, true, false⟩
  else if containsSub m "429" || containsSub m "resource_exhausted" ||
      containsSub m "rate limit" then
    ⟨true, false, false⟩
  else if containsSub m "blocked" || containsSub m "safety" then
    ⟨false, false, false⟩
  else
    ⟨true, false, false⟩

/-- Configuration of one `executeWithRetry` run: `maxAttemptsForThisCall`,
`GEMINI_INITIAL_DELAY_MS`, `GEMINI_MAX_DELAY_MS`, and the `Math.random()*500`
jitter drawn before the k-th backoff wait, given as an oracle. -/
structure RetryConfig where
  maxAttempts : Nat
  initialDelayMs : Nat
  maxDelayMs : Nat
  jitter : Nat → Nat

/-- One invocation of `apiCallFn`: it returns a result, rejects with a
`RateLimiterRes` carrying `msBeforeNext`, or throws an error with a message. -/
inductive CallOutcome where
  | success (responseText : String) (hasMetaData : Bool)
  | rateLimited (msBeforeNext : Nat)
  | errorThrown (message : String)
deriving DecidableEq, Repr

/-- The `ExecuteWithRetryResult` fields of the source plus instrumentation:
how many times `apiCallFn` was invoked in total, how many of those invocations
were real attempts (outcome not an internal rate-limiter rejection), the
backoff waits and internal-rate-limit waits performed, and how many times the
context cache was invalidated. -/
structure RetryResult where
  responseText : String
  hasMetaData : Bool
  finalErrorType : Option String
  firstAttemptFailed : Bool
  invocations : Nat
  realAttempts : Nat
  backoffWaits : List Nat
  rateLimitWaits : List Nat
  cacheInvalidations : Nat
deriving DecidableEq, Repr

/-- Loop state of `executeWithRetry`: `retryCount`, `currentDelay`, the number
of backoff waits performed so far (indexes the jitter oracle), plus the
instrumentation accumulators. -/
structure RetryState where
  retryCount : Nat
  currentDelay : Nat
  backoffCount : Nat
  invocations : Nat
  realAttempts : Nat
  backoffWaits : List Nat
  rateLimitWaits : List Nat
  cacheInvalidations : Nat
deriving Repr

/-- State at `retry_loop_start`: `retryCount = 0`,
`currentDelay = initialDelayMs`. -/
def RetryState.initial (cfg : RetryConfig) : RetryState :=
  ⟨0, cfg.initialDelayMs, 0, 0, 0, [], [], 0⟩

/-- A failure return of `executeWithRetry`: `defaultResponse` spread with
`firstAttemptFailed = true` and the given `finalErrorType`. -/
def failResult (st : RetryState) (e : String) : RetryResult :=
  ⟨"", false, some e, true, st.invocations, st.realAttempts,
    st.backoffWaits, st.rateLimitWaits, st.cacheInvalidations⟩

/-- The `while (retryCount < maxAttemptsForThisCall)` loop of
`executeWithRetry`, consuming one oracle entry per `apiCallFn` invocation.
An empty oracle while the loop would continue yields the distinguishable
marker `oracle_exhausted` (a modelling artifact, never reached in the
theorems below); exiting the loop because the guard fails mirrors the
`retry_loop_exit_unexpected` return of the source. -/
def executeWithRetryAux (cfg : RetryConfig) : List CallOutcome → RetryState → RetryResult
  | [], st =>
    if st.retryCount < cfg.maxAttempts then failResult st "oracle_exhausted"
    else failResult st "failed_first_attempt"
  | o :: rest, st =>
    if st.retryCount < cfg.maxAttempts then
      let attempt := st.retryCount + 1
      let st1 : RetryState := { st with invocations := st.invocations + 1 }
      match o with
      | .success t m =>
        ⟨t, m, none, decide (1 < attempt), st1.invocations, st1.realAttempts + 1,
          st1.backoffWaits, st1.rateLimitWaits, st1.cacheInvalidations⟩
      | .rateLimited w =>
        let st2 : RetryState := { st1 with rateLimitWaits := st1.rateLimitWaits ++ [w] }
        if cfg.maxAttempts = 1 then failResult st2 "failed_first_attempt"
        else executeWithRetryAux cfg rest st2
      | .errorThrown msg =>
        let c := classifyGeminiError msg
        let st2 : RetryState := { st1 with
          realAttempts := st1.realAttempts + 1,
          cacheInvalidations :=
            st1.cacheInvalidations + (if c.invalidateCacheOnError then 1 else 0),
          retryCount := st1.retryCount + 1 }
        if (attempt = 1 ∧ cfg.maxAttempts = 1) ∨ c.shouldRetry = false then
          failResult st2
            (if c.shouldRetry = false then "non_retryable_error" else "failed_first_attempt")
        else if cfg.maxAttempts ≤ st2.retryCount then
          failResult st2
            (if c.is5xxError then "5xx_non_retryable_for_current_model"
             else "failed_first_attempt")
        else
          executeWithRetryAux cfg rest { st2 with
            backoffWaits := st2.backoffWaits ++ [st2.currentDelay + cfg.jitter st2.backoffCount],
            backoffCount := st2.backoffCount + 1,
            currentDelay := min (st2.currentDelay * 2) cfg.maxDelayMs }
    else failResult st "failed_first_attempt"

/-- `GeminiRetryHandlerService.executeWithRetry` from its initial state. -/
def executeWithRetry (cfg : RetryConfig) (outcomes : List CallOutcome) : RetryResult :=
  executeWithRetryAux cfg outcomes (RetryState.initial cfg)

/-- The base backoff delay before the (k+1)-th real retry: `currentDelay`
starts at `initialDelayMs` and after each wait is doubled and capped at
`maxDelayMs` (line 220 of the retry handler). -/
def delaySeq (cfg : RetryConfig) : Nat → Nat
  | 0 => cfg.initialDelayMs
  | k + 1 => min (delaySeq cfg k * 2) cfg.maxDelayMs

/-! ### Orchestrator: GeminiApiOrchestratorService.orchestrateApiCall -/

/-- `CrawlModelType` of the source: how a model call is treated. -/
inductive CrawlModelType where
  | tuned
  | nonTuned
deriving DecidableEq, Repr

/-- The fields of an `ExecuteWithRetryResult` the orchestrator inspects. -/
structure RetryOutcome where
  responseText : String
  hasMetaData : Bool
  finalErrorType : Option String
deriving DecidableEq, Repr

/-- Oracles for the orchestrator run: whether `prepareForApiCall` succeeds for
the primary and the fallback, what the retry engine returns for each, and the
configured `GEMINI_MAX_RETRIES` used as the fallback budget. -/
structure OrchestratorEnv where
  primaryPrepOk : Bool
  primaryExec : RetryOutcome
  fallbackPrepOk : Bool
  fallbackExec : RetryOutcome
  defaultMaxRetriesForFallback : Nat

/-- One recorded call to `retryHandler.executeWithRetry`: which model, with
which effective treatment, and with which attempt budget. -/
structure ExecCall where
  modelName : String
  crawlModel : CrawlModelType
  maxAttempts : Nat
deriving DecidableEq, Repr

/-- The `OrchestrationResult` of the source (usage metadata as a flag). -/
structure OrchestrationResult where
  responseText : String
  hasMetaData : Bool
  success : Bool
  usedFallback : Bool
  modelActuallyUsed : Option String
  crawlModelActuallyUsed : Option CrawlModelType
  finalErrorType : Option String
deriving DecidableEq, Repr

/-- JS truthiness test `result.responseText || result.metaData` used by the
orchestrator to decide a phase succeeded (lines 295 and 453). -/
def retrySucceeded (r : RetryOutcome) : Bool :=
  decide (r.responseText ≠ "") || r.hasMetaData

/-- Phase 1 of `orchestrateApiCall` (lines 345-508): the fallback phase,
entered when the primary was absent or failed.  `primaryModelResult` is the
primary's retry-engine result when the primary was executed. -/
def fallbackPhase (env : OrchestratorEnv) (primaryModelName : Option String)
    (fallbackModelName : Option String) (initialCrawlModelType : CrawlModelType)
    (primaryModelResult : Option RetryOutcome) (trace : List ExecCall) :
    OrchestrationResult × List ExecCall :=
  match fallbackModelName with
  | none =>
    (⟨"", false, false, false, primaryModelName, some initialCrawlModelType,
      some ((primaryModelResult.bind (fun r => r.finalErrorType)).getD
        (if primaryModelName.isSome then "primary_failed_unknown" else "no_primary_model"))⟩,
      trace)
  | some f =>
    let fallbackEffectiveCrawlModelType : CrawlModelType :=
      if initialCrawlModelType = .tuned then .nonTuned else initialCrawlModelType
    if env.fallbackPrepOk then
      let r := env.fallbackExec
      let trace2 := trace ++ [⟨f, fallbackEffectiveCrawlModelType, env.defaultMaxRetriesForFallback⟩]
      if retrySucceeded r then
        (⟨r.responseText, r.hasMetaData, true, true, some f,
          some fallbackEffectiveCrawlModelType, none⟩, trace2)
      else
        (⟨"", false, false, true, some f, some fallbackEffectiveCrawlModelType,
          r.finalErrorType⟩, trace2)
    else
      (⟨"", false, false, true, some f, some fallbackEffectiveCrawlModelType,
        some "fallback_prep_failed"⟩, trace)

/-- `orchestrateApiCall`: primary single shot (maxAttempts 1), then fallback
with the full configured budget.  Returns the result and the trace of retry
engine calls made. -/
def orchestrateApiCall (env : OrchestratorEnv) (primaryModelName : Option String)
    (fallbackModelName : Option String) (initialCrawlModelType : CrawlModelType) :
    OrchestrationResult × List ExecCall :=
  match primaryModelName with
  | none => fallbackPhase env none fallbackModelName initialCrawlModelType none []
  | some p =>
    if env.primaryPrepOk then
      let trace := [⟨p, initialCrawlModelType, 1⟩]
      let r := env.primaryExec
      if retrySucceeded r then
        (⟨r.responseText, r.hasMetaData, true, false, some p,
          some initialCrawlModelType, none⟩, trace)
      else
        fallbackPhase env (some p) fallbackModelName initialCrawlModelType (some r) trace
    else
      fallbackPhase env (some p) fallbackModelName initialCrawlModelType none []

/-- The condition under which the primary phase returns early with success. -/
def primaryPhaseSucceeded (env : OrchestratorEnv) (primaryModelName : Option String) : Bool :=
  primaryModelName.isSome && env.primaryPrepOk && retrySucceeded env.primaryExec

/-! ### Round-robin model selection: GeminiApiService.executeApiCallLogic -/

/-- Lines 251-253 of geminiApi.service.ts:
`selectedModelName = modelList[currentIndex]` (undefined when out of bounds,
hence `Option`) and
`modelIndices[apiType] = (currentIndex + 1) % modelList.length`. -/
def selectModel (modelList : List String) (currentIndex : Nat) : Option String × Nat :=
  (modelList.get? currentIndex, (currentIndex + 1) % modelList.length)

/-- The stored per-apiType index after k successive local calls that all use
the same `modelList`, starting from the constructor value 0. -/
def modelIndexIter (modelList : List String) : Nat → Nat
  | 0 => 0
  | k + 1 => (selectModel modelList (modelIndexIter modelList k)).2

/-! ### Response pipeline: GeminiResponseHandlerService.processResponse

Strings are modelled as `List Char`.  Character constants whose literals the
file avoids are produced with `Char.ofNat`. -/

/-- The backtick character. -/
def btick : Char := Char.ofNat 96

/-- The opening curly brace character. -/
def braceOpen : Char := Char.ofNat 123

/-- The closing curly brace character. -/
def braceClose : Char := Char.ofNat 125

/-- JS regex `\s`: whitespace as matched by the patterns of the response
handler (tab, line feed, vertical tab, form feed, carriage return, space,
no-break space, ogham space mark, the en-quad..hair-space range, line and
paragraph separators, narrow no-break space, medium mathematical space,
ideographic space, byte order mark). -/
def isJsWs (c : Char) : Bool :=
  let n := c.toNat
  n == 9 || n == 10 || n == 11 || n == 12 || n == 13 || n == 32 ||
    n == 160 || n == 5760 || (8192 ≤ n && n ≤ 8202) || n == 8232 ||
    n == 8233 || n == 8239 || n == 8287 || n == 12288 || n == 65279

/-- JS line terminators (for the multiline anchors of the fence regex). -/
def isLineTerm (c : Char) : Bool :=
  let n := c.toNat
  n == 10 || n == 13 || n == 8232 || n == 8233

/-- JS `String.prototype.trim` on character lists. -/
def jsTrim (l : List Char) : List Char :=
  ((l.dropWhile isJsWs).reverse.dropWhile isJsWs).reverse

/-- Whether the closing part of the fence regex, the greedy second
whitespace run followed by three backticks and a multiline end anchor,
matches at the start of `l`.  Since whitespace characters are never
backticks, the greedy-with-backtracking whitespace run is equivalent to the
maximal one. -/
def closingMatch (l : List Char) : Bool :=
  match l.dropWhile isJsWs with
  | c1 :: c2 :: c3 :: t =>
    c1 == btick && c2 == btick && c3 == btick &&
      (match t with
       | [] => true
       | d :: _ => isLineTerm d)
  | _ => false

/-- The lazy capture group of the fence regex: the shortest prefix of `l`
whose remainder is matched by `closingMatch`.  Returns the captured group.
`closingMatch []` is false, so the empty list yields no match. -/
def lazyContent : List Char → Option (List Char)
  | [] => none
  | c :: rest =>
    if closingMatch (c :: rest) then some []
    else (lazyContent rest).map (fun g => c :: g)

/-- The optional case-insensitive `json` language tag after the opening
fence.  The regex group is greedy; consuming the tag never turns a matching
input into a non-matching one (the tag letters are neither whitespace nor
backticks), so taking it whenever present is equivalent. -/
def takeJsonTag : List Char → List Char
  | a :: b :: c :: d :: r =>
    if a.toLower == 'j' && b.toLower == 's' && c.toLower == 'o' && d.toLower == 'n' then r
    else a :: b :: c :: d :: r
  | l => l

/-- Matching the fence regex at one start position: three backticks, the
optional `json` tag, a greedy whitespace run, then the lazy capture ended by
`closingMatch`. -/
def matchFenceAt : List Char → Option (List Char)
  | b1 :: b2 :: b3 :: rest =>
    if b1 == btick && b2 == btick && b3 == btick then
      lazyContent ((takeJsonTag rest).dropWhile isJsWs)
    else none
  | _ => none

/-- `String.prototype.match` with the multiline start anchor: the regex is
tried at position 0 and after every line terminator, leftmost match first. -/
def fenceScanAux : List Char → Bool → Option (List Char)
  | [], _ => none
  | c :: rest, atLineStart =>
    match (if atLineStart then matchFenceAt (c :: rest) else none) with
    | some g => some g
    | none => fenceScanAux rest (isLineTerm c)

/-- `GeminiResponseHandlerService.stripMarkdownJsonWrapper` (lines 31-53):
empty or all-whitespace input yields the empty string; a fence match with a
truthy (non-empty) capture group yields the trimmed group; otherwise the
input is returned unchanged. -/
def stripMarkdownJsonWrapper (l : List Char) : List Char :=
  if jsTrim l = [] then []
  else
    match fenceScanAux l true with
    | some g => if g = [] then l else jsTrim g
    | none => l

/-- Whether the tail part of the trailing-comma regex matches: a maximal
whitespace run followed by the closing character (`\s*` is
backtracking-greedy, but whitespace never equals the closing character, so
the maximal run is equivalent).  Returns the whitespace run and the
remainder after the closing character. -/
def wsThenClose (close : Char) (l : List Char) : Option (List Char × List Char) :=
  match l.dropWhile isJsWs with
  | c :: r => if c == close then some (l.takeWhile isJsWs, r) else none
  | [] => none

/-- One global-replace pass `replace(/,(\s*C)/g, d1-backreference)` for the
closing character `C`.  The JS engine resumes scanning after each replaced
match; since the replaced region (whitespace then `C`) contains no comma,
rescanning it cannot produce a match, so dropping the comma and continuing
with the very next character is equivalent. -/
def fixCommaAux (close : Char) : List Char → List Char
  | [] => []
  | c :: rest =>
    if c == ',' && (wsThenClose close rest).isSome then fixCommaAux close rest
    else c :: fixCommaAux close rest

/-- The text portion of `processResponse` (lines 93-109): strip a markdown
fence, then, when the stripped text is not all whitespace, repair trailing
commas before closing braces and before closing square brackets. -/
def processResponseText (l : List Char) : List Char :=
  let processed := stripMarkdownJsonWrapper l
  if 0 < (jsTrim processed).length then
    fixCommaAux ']' (fixCommaAux braceClose processed)
  else processed

/-- Whether a trailing-comma match for `close` exists anywhere in `l`. -/
def hasCommaClose (close : Char) : List Char → Bool
  | [] => false
  | c :: rest =>
    (c == ',' && (wsThenClose close rest).isSome) || hasCommaClose close rest

/-- Whether three consecutive backticks occur in `l` (an internal
fenced-block artifact). -/
def hasTripleBacktick (l : List Char) : Bool :=
  containsList [btick, btick, btick] l

/-- The closing part of a fenced block: a newline and three backticks. -/
def fenceTail : List Char :=
  '\n' :: btick :: btick :: btick :: []

/-- Wrapping a text in a fenced json block, as in the round-trip property:
three backticks, the json tag, a newline, the text, a newline and the
closing three backticks. -/
def fencedWrap (l : List Char) : List Char :=
  btick :: btick :: btick :: 'j' :: 's' :: 'o' :: 'n' :: '\n' :: (l ++ fenceTail)

/-! ### Context cache: GeminiContextCacheService.getOrCreateContext

The SDK boundary is an oracle; operations that can throw are `Except`
values.  The state holds the in-memory cache map entry, the in-flight
promise map entry (by the time a later sequential call observes it, a
registered promise has settled, so it is modelled by its settled value), the
persisted map entry, and a counter of remote cache-creation calls. -/

/-- Oracle for the SDK and persistence calls made by one
`getOrCreateContext` operation. -/
structure SdkBehavior where
  managerOk : Bool
  retrieveResult : Except String (Option String)
  removeSave : Except String Unit
  createResult : Except String (Option String)
  createSave : Except String Unit

/-- Observable state of the cache service for one cache key. -/
structure CacheSvcState where
  mem : Option String
  registered : Option (Option String)
  persisted : Option String
  remoteCreates : Nat
deriving DecidableEq, Repr

/-- Truthiness test `entry?.name` used on the in-memory map (lines 62 and
113): a hit requires a present entry with a non-empty name. -/
def memHit (m : Option String) : Option String :=
  match m with
  | some n => if n ≠ "" then some n else none
  | none => none

/-- `removePersistentEntry` (lines 197-215): when a persistent entry exists,
delete it and save the map (`saveMap` may throw, in which case the in-memory
deletion below is not reached); then delete the in-memory entry. -/
def removePersistentEntryModel (b : SdkBehavior) (s : CacheSvcState) :
    Except String Unit × CacheSvcState :=
  if s.persisted.isSome then
    match b.removeSave with
    | .error e => (.error e, { s with persisted := none })
    | .ok _ => (.ok (), { s with persisted := none, mem := none })
  else (.ok (), { s with mem := none })

/-- The creation stage of the in-flight body (lines 111-173): re-check the
in-memory map, then issue the remote creation; on an invalid or empty name
or a thrown error return null; on success store in memory, persist, and save
the map (a `saveMap` throw is caught by the creation catch and yields null
with the stores already made). -/
def createStage (b : SdkBehavior) (s : CacheSvcState) : Option String × CacheSvcState :=
  match memHit s.mem with
  | some n => (some n, s)
  | none =>
    let s1 : CacheSvcState := { s with remoteCreates := s.remoteCreates + 1 }
    match b.createResult with
    | .error _ => (none, s1)
    | .ok none => (none, s1)
    | .ok (some cname) =>
      if cname = "" then (none, s1)
      else
        let s2 : CacheSvcState := { s1 with mem := some cname, persisted := some cname }
        match b.createSave with
        | .error _ => (none, s2)
        | .ok _ => (some cname, s2)

/-- The try body of the in-flight operation (lines 87-177): attempt
persistent retrieval; on a truthy retrieved name store it in memory and
return it; on a falsy result or a retrieval error remove the persistent
entry (an error thrown inside that removal reaches the outer catch, which
returns null); then fall through to the creation stage. -/
def getOrCreateTryBody (b : SdkBehavior) (s : CacheSvcState) :
    Option String × CacheSvcState :=
  match s.persisted with
  | some _ =>
    match b.retrieveResult with
    | .ok (some rname) =>
      if rname ≠ "" then (some rname, { s with mem := some rname })
      else
        match removePersistentEntryModel b s with
        | (.error _, s1) => (none, s1)
        | (.ok _, s1) => createStage b s1
    | .ok none =>
      match removePersistentEntryModel b s with
      | (.error _, s1) => (none, s1)
      | (.ok _, s1) => createStage b s1
    | .error _ =>
      match removePersistentEntryModel b s with
      | (.error _, s1) => (none, s1)
      | (.ok _, s1) => createStage b s1
  | none => createStage b s

/-- One full sequential `getOrCreateContext` call (lines 46-187).  Step 1:
in-memory hit.  Step 2: a registered in-flight promise is awaited (settled
by observation time).  Step 3: when `getCacheManager` throws, the catch
returns null synchronously, so the finally-block deletion runs before the
promise is stored into the map and the settled promise remains registered;
in every other path the first await precedes completion, so the
registration set at line 184 is deleted again by the finally block and the
map entry nets to absent. -/
def getOrCreateOnce (b : SdkBehavior) (s : CacheSvcState) :
    Except String (Option String × CacheSvcState) :=
  match memHit s.mem with
  | some n => .ok (some n, s)
  | none =>
    match s.registered with
    | some v => .ok (v, s)
    | none =>
      if b.managerOk then .ok (getOrCreateTryBody b s)
      else .ok (none, { s with registered := some none })

/-! ## Theorems -/

/-- A classification with `shouldRetry = false` can only come from the
blocked/safety branch, whose other two flags are `false`. -/
theorem classify_not_retry_eq (msg : String)
    (h : (classifyGeminiError msg).shouldRetry = false) :
    classifyGeminiError msg = ⟨false, false, false⟩ := by
  simp only [classifyGeminiError] at h ⊢
  split_ifs at h ⊢
  simp_all

/-- Claim C2: in `executeWithRetry`, a `RateLimiterRes` rejection records a
wait of the limiter-specified delay and re-enters the loop with the same
`retryCount` (no attempt consumed) when more than one attempt is allowed;
when `maxAttempts = 1` it instead returns at once as a first-attempt failure
with `finalErrorType` failed_first_attempt, with no real attempt consumed
and no backoff wait. -/
theorem c2_internal_rate_limit (cfg : RetryConfig) (w : Nat)
    (rest : List CallOutcome) (st : RetryState)
    (h : st.retryCount < cfg.maxAttempts) :
    (1 < cfg.maxAttempts →
      executeWithRetryAux cfg (.rateLimited w :: rest) st =
        executeWithRetryAux cfg rest
          { st with invocations := st.invocations + 1,
                    rateLimitWaits := st.rateLimitWaits ++ [w] }) ∧
    (cfg.maxAttempts = 1 →
      executeWithRetry cfg (.rateLimited w :: rest) =
        ⟨"", false, some "failed_first_attempt", true, 1, 0, [], [w], 0⟩) := by
  constructor
  · intro hgt
    have hne : ¬ cfg.maxAttempts = 1 := by omega
    simp [executeWithRetryAux, h, hne]
  · intro h1
    simp [executeWithRetry, executeWithRetryAux, RetryState.initial, h1, failResult]

/-- Witness for C2 at a concrete single-shot configuration and a concrete
limiter rejection. -/
theorem c2_internal_rate_limit_witness :
    executeWithRetry ⟨1, 100, 30000, fun _ => 0⟩ [.rateLimited 250] =
      ⟨"", false, some "failed_first_attempt", true, 1, 0, [], [250], 0⟩ :=
  (c2_internal_rate_limit ⟨1, 100, 30000, fun _ => 0⟩ 250 []
    (RetryState.initial ⟨1, 100, 30000, fun _ => 0⟩) (by decide)).2 rfl

/-- Counterexample to claim C3 as stated: the message of this failed attempt
contains the substring blocked, yet because it also contains 500 the
classifier files it as a transient 5xx error, and the engine performs a
second attempt (two invocations) and ends successfully instead of aborting
with a non-retryable failure on the first encounter. -/
theorem c3_counterexample :
    containsSub (lowerList "Error 500: generation blocked") "blocked" = true ∧
    (executeWithRetry ⟨2, 100, 30000, fun _ => 0⟩
      [.errorThrown "Error 500: generation blocked", .success "ok" true]).invocations = 2 ∧
    (executeWithRetry ⟨2, 100, 30000, fun _ => 0⟩
      [.errorThrown "Error 500: generation blocked", .success "ok" true]).finalErrorType
        = none ∧
    (executeWithRetry ⟨2, 100, 30000, fun _ => 0⟩
      [.errorThrown "Error 500: generation blocked", .success "ok" true]).responseText
        = "ok" := by
  refine ⟨by decide, by decide, by decide, by decide⟩

/-- Claim C3 (amended): at any loop state — so at any attempt number, in
particular after earlier transient failures — an attempt failing with an
error that the engine classifies as safety-blocked (its lowercased message
contains blocked or safety and none of the substrings of the earlier 5xx,
stale-cache and quota categories) makes the engine return immediately with
`finalErrorType` non_retryable_error after that single invocation: the
remaining outcomes are never consumed, no further wait is performed, and
this holds regardless of the remaining attempt budget. -/
theorem c3_safety_nonretryable (cfg : RetryConfig) (msg : String)
    (rest : List CallOutcome) (st : RetryState)
    (h1 : st.retryCount < cfg.maxAttempts)
    (h2 : (classifyGeminiError msg).shouldRetry = false) :
    executeWithRetryAux cfg (.errorThrown msg :: rest) st =
      ⟨"", false, some "non_retryable_error", true, st.invocations + 1,
        st.realAttempts + 1, st.backoffWaits, st.rateLimitWaits,
        st.cacheInvalidations⟩ := by
  have hc := classify_not_retry_eq msg h2
  simp [executeWithRetryAux, h1, hc, failResult]

/-- Witness for the amended C3: a transient 503 on attempt 1 is retried,
then the safety-blocked failure on attempt 2 aborts the whole run with
non_retryable_error, with the third-attempt budget left unused. -/
theorem c3_safety_nonretryable_witness :
    executeWithRetry ⟨3, 100, 30000, fun _ => 0⟩
      [.errorThrown "503 service unavailable",
        .errorThrown "response blocked by safety settings"] =
      ⟨"", false, some "non_retryable_error", true, 2, 2, [100], [], 0⟩ := by
  have hstep := c3_safety_nonretryable ⟨3, 100, 30000, fun _ => 0⟩
    "response blocked by safety settings" [] ⟨1, 200, 1, 1, 1, [100], [], 0⟩
    (by decide) (by decide)
  have hrun : executeWithRetry ⟨3, 100, 30000, fun _ => 0⟩
      [.errorThrown "503 service unavailable",
        .errorThrown "response blocked by safety settings"] =
      executeWithRetryAux ⟨3, 100, 30000, fun _ => 0⟩
        [.errorThrown "response blocked by safety settings"]
        ⟨1, 200, 1, 1, 1, [100], [], 0⟩ := by decide
  rw [hrun, hstep]

/-- The capped doubling sequence never exceeds the configured ceiling. -/
theorem delaySeq_le_max (cfg : RetryConfig) (h : cfg.initialDelayMs ≤ cfg.maxDelayMs) :
    ∀ k, delaySeq cfg k ≤ cfg.maxDelayMs
  | 0 => h
  | _ + 1 => Nat.min_le_right _ _

/-- The capped doubling sequence is non-decreasing. -/
theorem delaySeq_mono (cfg : RetryConfig) (h : cfg.initialDelayMs ≤ cfg.maxDelayMs)
    (k : Nat) : delaySeq cfg k ≤ delaySeq cfg (k + 1) := by
  have h1 : delaySeq cfg k ≤ delaySeq cfg k * 2 := by omega
  exact Nat.le_min.mpr ⟨h1, delaySeq_le_max cfg h k⟩

/-- Loop invariant: real attempts never exceed the budget.  At loop entry
the completed real attempts equal `retryCount`, which stays within
`maxAttempts`. -/
theorem aux_realAttempts_le (cfg : RetryConfig) :
    ∀ (outcomes : List CallOutcome) (st : RetryState),
      st.realAttempts ≤ st.retryCount → st.retryCount ≤ cfg.maxAttempts →
      (executeWithRetryAux cfg outcomes st).realAttempts ≤ cfg.maxAttempts := by
  intro outcomes
  induction outcomes with
  | nil =>
    intro st h1 h2
    simp only [executeWithRetryAux]
    split
    · simpa [failResult] using le_trans h1 h2
    · simpa [failResult] using le_trans h1 h2
  | cons o rest ih =>
    intro st h1 h2
    by_cases hguard : st.retryCount < cfg.maxAttempts
    · cases o with
      | success t m =>
        simp only [executeWithRetryAux, hguard, if_true]
        simpa using by omega
      | rateLimited w =>
        by_cases hone : cfg.maxAttempts = 1
        · have h0 : st.retryCount = 0 := by omega
          simp only [executeWithRetryAux, hguard, if_true, hone, h0]
          simp [failResult]
          omega
        · simp only [executeWithRetryAux, hguard, if_true, hone, if_false]
          exact ih _ (by simpa using h1) (by simpa using h2)
      | errorThrown msg =>
        by_cases hstop : (st.retryCount + 1 = 1 ∧ cfg.maxAttempts = 1) ∨
            (classifyGeminiError msg).shouldRetry = false
        · simp only [executeWithRetryAux, hguard, if_true, hstop]
          simp [failResult]
          omega
        · by_cases hlast : cfg.maxAttempts ≤ st.retryCount + 1
          · simp only [executeWithRetryAux, hguard, if_true, hstop, if_false]
            simp only [hlast]
            simp [failResult]
            omega
          · simp only [executeWithRetryAux, hguard, if_true, hstop, if_false]
            simp only [hlast, if_false]
            exact ih _ (by simpa using by omega) (by simpa using by omega)
    · simp only [executeWithRetryAux, hguard, if_false]
      simpa [failResult] using le_trans h1 h2

/-- Loop invariant: whenever `currentDelay` tracks the capped doubling
sequence at index `backoffCount` and the waits performed so far are exactly
the first `backoffCount` base delays plus their jitters, the final list of
backoff waits is the initial segment of that sequence. -/
theorem aux_backoff_shape (cfg : RetryConfig) :
    ∀ (outcomes : List CallOutcome) (st : RetryState),
      st.currentDelay = delaySeq cfg st.backoffCount →
      st.backoffWaits =
        (List.range st.backoffCount).map (fun k => delaySeq cfg k + cfg.jitter k) →
      (executeWithRetryAux cfg outcomes st).backoffWaits =
        (List.range (executeWithRetryAux cfg outcomes st).backoffWaits.length).map
          (fun k => delaySeq cfg k + cfg.jitter k) := by
  intro outcomes
  induction outcomes with
  | nil =>
    intro st h1 h2
    simp only [executeWithRetryAux]
    split
    · simp [failResult, h2]
    · simp [failResult, h2]
  | cons o rest ih =>
    intro st h1 h2
    by_cases hguard : st.retryCount < cfg.maxAttempts
    · cases o with
      | success t m =>
        simp only [executeWithRetryAux, hguard, if_true]
        simp [h2]
      | rateLimited w =>
        by_cases hone : cfg.maxAttempts = 1
        · have h0 : st.retryCount = 0 := by omega
          simp only [executeWithRetryAux, hguard, if_true, hone, h0]
          simp [failResult, h2]
        · simp only [executeWithRetryAux, hguard, if_true, hone, if_false]
          exact ih _ (by simpa using h1) (by simpa using h2)
      | errorThrown msg =>
        by_cases hstop : (st.retryCount + 1 = 1 ∧ cfg.maxAttempts = 1) ∨
            (classifyGeminiError msg).shouldRetry = false
        · simp only [executeWithRetryAux, hguard, if_true, hstop]
          simp [failResult, h2]
        · by_cases hlast : cfg.maxAttempts ≤ st.retryCount + 1
          · simp only [executeWithRetryAux, hguard, if_true, hstop, if_false]
            simp only [hlast]
            simp [failResult, h2]
          · simp only [executeWithRetryAux, hguard, if_true, hstop, if_false]
            simp only [hlast, if_false]
            refine ih _ ?_ ?_
            · simp only [h1]
              simp [delaySeq]
            · simp only []
              rw [h2, h1, List.range_succ, List.map_append]
              simp
    · simp only [executeWithRetryAux, hguard, if_false]
      simp [failResult, h2]

/-- Claim C4: with a budget of `N > 1` attempts, the engine performs at most
`N` real attempts (invocations whose outcome is not an internal rate-limiter
rejection), the backoff waits performed are exactly the capped doubling
sequence plus the drawn jitters, the base sequence is non-decreasing and
never exceeds the ceiling, and each performed wait lies within jitter
distance (less than 500 ms) above its base delay. -/
theorem c4_attempt_budget_and_backoff (cfg : RetryConfig) (outcomes : List CallOutcome)
    (_hN : 1 < cfg.maxAttempts) (hd : cfg.initialDelayMs ≤ cfg.maxDelayMs)
    (hj : ∀ k, cfg.jitter k < 500) :
    (executeWithRetry cfg outcomes).realAttempts ≤ cfg.maxAttempts ∧
    (executeWithRetry cfg outcomes).backoffWaits =
      (List.range (executeWithRetry cfg outcomes).backoffWaits.length).map
        (fun k => delaySeq cfg k + cfg.jitter k) ∧
    (∀ k, delaySeq cfg k ≤ delaySeq cfg (k + 1)) ∧
    (∀ k, delaySeq cfg k ≤ cfg.maxDelayMs) ∧
    (∀ k, delaySeq cfg k ≤ delaySeq cfg k + cfg.jitter k ∧
      delaySeq cfg k + cfg.jitter k < delaySeq cfg k + 500) := by
  refine ⟨?_, ?_, delaySeq_mono cfg hd, delaySeq_le_max cfg hd, ?_⟩
  · exact aux_realAttempts_le cfg outcomes (RetryState.initial cfg)
      (Nat.le_refl 0) (Nat.zero_le _)
  · exact aux_backoff_shape cfg outcomes (RetryState.initial cfg) rfl rfl
  · intro k
    exact ⟨Nat.le_add_right _ _, by have := hj k; omega⟩

/-- Witness for C4 at a concrete three-attempt run with two transient 5xx
failures. -/
theorem c4_attempt_budget_and_backoff_witness :
    (executeWithRetry ⟨3, 100, 1000, fun _ => 7⟩
      [.errorThrown "503 unavailable", .errorThrown "503 unavailable",
        .success "ok" true]).realAttempts ≤ 3 :=
  (c4_attempt_budget_and_backoff ⟨3, 100, 1000, fun _ => 7⟩
    [.errorThrown "503 unavailable", .errorThrown "503 unavailable", .success "ok" true]
    (by decide) (by decide) (by intro k; show 7 < 500; decide)).1

/-- Claim C5: with `maxAttempts = 1`, a retryable failure on the first
attempt terminates immediately with `finalErrorType` failed_first_attempt
and an empty list of backoff waits. -/
theorem c5_single_shot_retryable (cfg : RetryConfig) (msg : String)
    (rest : List CallOutcome) (h1 : cfg.maxAttempts = 1)
    (h2 : (classifyGeminiError msg).shouldRetry = true) :
    executeWithRetry cfg (.errorThrown msg :: rest) =
      ⟨"", false, some "failed_first_attempt", true, 1, 1, [], [],
        if (classifyGeminiError msg).invalidateCacheOnError then 1 else 0⟩ := by
  simp [executeWithRetry, executeWithRetryAux, RetryState.initial, h1, h2, failResult]

/-- Witness for C5 at a concrete retryable (malformed JSON) failure. -/
theorem c5_single_shot_retryable_witness :
    executeWithRetry ⟨1, 100, 30000, fun _ => 0⟩
      [.errorThrown "Gemini response is not valid JSON"] =
      ⟨"", false, some "failed_first_attempt", true, 1, 1, [], [],
        if (classifyGeminiError "Gemini response is not valid JSON").invalidateCacheOnError
        then 1 else 0⟩ :=
  c5_single_shot_retryable ⟨1, 100, 30000, fun _ => 0⟩
    "Gemini response is not valid JSON" [] rfl (by decide)

/-- Claim C6: whenever the fallback phase executes (primary absent, its
preparation failed, or its single shot failed) and the fallback preparation
succeeds, the retry engine is invoked for the fallback model with effective
treatment non-tuned when the initial treatment was tuned and the initial
treatment otherwise, and with the full configured retry budget; the outcome
reports that effective treatment. -/
theorem c6_fallback_effective_treatment (env : OrchestratorEnv) (pm : Option String)
    (f : String) (t : CrawlModelType)
    (hprep : env.fallbackPrepOk = true)
    (hfail : primaryPhaseSucceeded env pm = false) :
    ((orchestrateApiCall env pm (some f) t).2).getLast? =
      some ⟨f, if t = .tuned then .nonTuned else t, env.defaultMaxRetriesForFallback⟩ ∧
    (orchestrateApiCall env pm (some f) t).1.crawlModelActuallyUsed =
      some (if t = .tuned then .nonTuned else t) := by
  cases pm with
  | none =>
    simp only [orchestrateApiCall, fallbackPhase, hprep, if_true]
    cases hre : retrySucceeded env.fallbackExec <;> simp [hre]
  | some p =>
    by_cases hpp : env.primaryPrepOk
    · have hrs : retrySucceeded env.primaryExec = false := by
        simpa [primaryPhaseSucceeded, hpp] using hfail
      simp only [orchestrateApiCall, hpp, if_true, hrs, Bool.false_eq_true, if_false,
        fallbackPhase, hprep]
      cases hre : retrySucceeded env.fallbackExec <;> simp [hre]
    · simp only [orchestrateApiCall, hpp, if_false, fallbackPhase, hprep, if_true]
      cases hre : retrySucceeded env.fallbackExec <;> simp [hre]

/-- Witness for C6: a tuned primary that fails its single shot, with a
fallback whose preparation succeeds; the fallback is executed as non-tuned
with the configured budget of 5. -/
theorem c6_fallback_effective_treatment_witness :
    ((orchestrateApiCall
        ⟨true, ⟨"", false, some "failed_first_attempt"⟩, true, ⟨"done", true, none⟩, 5⟩
        (some "tunedModels/m1") (some "gemini-2.0-flash") .tuned).2).getLast? =
      some ⟨"gemini-2.0-flash",
        if CrawlModelType.tuned = .tuned then .nonTuned else .tuned, 5⟩ :=
  (c6_fallback_effective_treatment
    ⟨true, ⟨"", false, some "failed_first_attempt"⟩, true, ⟨"done", true, none⟩, 5⟩
    (some "tunedModels/m1") "gemini-2.0-flash" .tuned rfl (by decide)).1

/-- Claim C9: with no primary model and no fallback configured, the outcome
has success false, usedFallback false, empty response text and final error
type no_primary_model; with a primary that was prepared and failed its
single shot and no fallback configured, the outcome instead carries the
primary's failure reason. -/
theorem c9_no_fallback_outcomes (env : OrchestratorEnv) (p e : String)
    (t : CrawlModelType) (h1 : env.primaryPrepOk = true)
    (h2 : retrySucceeded env.primaryExec = false)
    (h3 : env.primaryExec.finalErrorType = some e) :
    (orchestrateApiCall env none none t).1 =
      ⟨"", false, false, false, none, some t, some "no_primary_model"⟩ ∧
    (orchestrateApiCall env (some p) none t).1 =
      ⟨"", false, false, false, some p, some t, some e⟩ := by
  constructor
  · simp [orchestrateApiCall, fallbackPhase]
  · simp [orchestrateApiCall, h1, h2, fallbackPhase, h3]

/-- Witness for C9 at a concrete environment whose primary single shot
failed with failed_first_attempt. -/
theorem c9_no_fallback_outcomes_witness :
    (orchestrateApiCall
        ⟨true, ⟨"", false, some "failed_first_attempt"⟩, false, ⟨"", false, none⟩, 5⟩
        none none .nonTuned).1 =
      ⟨"", false, false, false, none, some .nonTuned, some "no_primary_model"⟩ ∧
    (orchestrateApiCall
        ⟨true, ⟨"", false, some "failed_first_attempt"⟩, false, ⟨"", false, none⟩, 5⟩
        (some "gemini-2.0-flash") none .nonTuned).1 =
      ⟨"", false, false, false, some "gemini-2.0-flash", some .nonTuned,
        some "failed_first_attempt"⟩ :=
  c9_no_fallback_outcomes
    ⟨true, ⟨"", false, some "failed_first_attempt"⟩, false, ⟨"", false, none⟩, 5⟩
    "gemini-2.0-flash" "failed_first_attempt" .nonTuned rfl (by decide) rfl

/-- Counterexample to claim C10 as stated: after one local call of an
apiType whose list has three models, the stored index is 1; a next local
call of the same apiType whose (non-empty) list has a single model selects
`modelList[1]`, which is not an element of the list (undefined), so the
selected model is not the list element at the stored index and the stored
index was not within the bounds of that call's list. -/
theorem c10_counterexample :
    ((["model-x"] : List String) ≠ []) ∧
    (selectModel ["model-a", "model-b", "model-c"] 0).2 = 1 ∧
    (selectModel ["model-x"] ((selectModel ["model-a", "model-b", "model-c"] 0).2)).1
      = none := by
  refine ⟨by decide, by decide, by decide⟩

/-- Claim C10 (amended): on every local call whose stored per-apiType index
is within the bounds of that call's non-empty model list, the selected model
is the list element at the stored index and the index is advanced to
(index + 1) mod length, which again lies in [0, length); in particular,
successive local calls of the same apiType that keep using one fixed model
list cycle through it in order: after k calls the stored index is
k mod length and the k-th call selects the element at that position. -/
theorem c10_round_robin (l : List String) (i : Nat) (h : i < l.length) :
    (selectModel l i).1 = some (l.get ⟨i, h⟩) ∧
    (selectModel l i).2 = (i + 1) % l.length ∧
    (selectModel l i).2 < l.length ∧
    (∀ k, modelIndexIter l k = k % l.length) ∧
    (∀ k, (selectModel l (modelIndexIter l k)).1 = l.get? (k % l.length)) := by
  have hpos : 0 < l.length := Nat.lt_of_le_of_lt (Nat.zero_le _) h
  have hiter : ∀ k, modelIndexIter l k = k % l.length := by
    intro k
    induction k with
    | zero => simp [modelIndexIter]
    | succ k ih => simp [modelIndexIter, selectModel, ih, Nat.mod_add_mod]
  refine ⟨?_, rfl, Nat.mod_lt _ hpos, hiter, ?_⟩
  · simp [selectModel, List.get?_eq_get h]
  · intro k
    simp [selectModel, hiter]

/-- Witness for the amended C10 at a concrete three-model list and stored
index 1. -/
theorem c10_round_robin_witness :
    (selectModel ["model-a", "model-b", "model-c"] 1).1 =
      some (["model-a", "model-b", "model-c"].get ⟨1, by decide⟩) :=
  (c10_round_robin ["model-a", "model-b", "model-c"] 1 (by decide)).1

/-- Claim C1 evaluated at the failing input.  First call: the cache manager
is unavailable, so the in-flight body completes synchronously; the
finally-block deletion runs before the promise is stored, and the call ends
with the settled null promise still registered.  Second call: the manager is
back and creation would succeed, yet the call returns null by awaiting the
stale registered promise, issues no remote creation (the counter stays 0),
and leaves the registration in place — contradicting the claim that on
completion the in-flight registration is removed so that a later call may
retry. -/
theorem c1_stale_registration :
    getOrCreateOnce ⟨false, .ok none, .ok (), .ok none, .ok ()⟩ ⟨none, none, none, 0⟩ =
      .ok (none, ⟨none, some none, none, 0⟩) ∧
    getOrCreateOnce ⟨true, .ok (some "handle"), .ok (), .ok (some "new-cache"), .ok ()⟩
      ⟨none, some none, none, 0⟩ =
      .ok (none, ⟨none, some none, none, 0⟩) :=
  ⟨rfl, rfl⟩

/-- Claim C7: `getOrCreateContext` never throws — the embedded call always
produces an ok value — and it resolves to null (no cache) when the cache
manager is unavailable, when remote creation throws or returns an invalid
cache object, and when an unexpected error (a throwing map save during the
removal of a stale persistent entry) escapes to the outer catch. -/
theorem c7_get_or_create_never_throws (b : SdkBehavior) (s : CacheSvcState) :
    (∃ v s2, getOrCreateOnce b s = .ok (v, s2)) ∧
    (s.mem = none → s.registered = none → b.managerOk = false →
      getOrCreateOnce b s = .ok (none, { s with registered := some none })) ∧
    (s.mem = none → s.registered = none → s.persisted = none → b.managerOk = true →
      (∀ e, b.createResult = .error e →
        getOrCreateOnce b s = .ok (none, { s with remoteCreates := s.remoteCreates + 1 })) ∧
      (b.createResult = .ok none →
        getOrCreateOnce b s = .ok (none, { s with remoteCreates := s.remoteCreates + 1 }))) ∧
    (s.mem = none → s.registered = none → b.managerOk = true →
      ∀ k e e2, s.persisted = some k → b.retrieveResult = .error e →
        b.removeSave = .error e2 →
        getOrCreateOnce b s = .ok (none, { s with persisted := none })) := by
  refine ⟨?_, ?_, ?_, ?_⟩
  · unfold getOrCreateOnce
    cases hm : memHit s.mem with
    | some n => exact ⟨some n, s, rfl⟩
    | none =>
      cases hr : s.registered with
      | some v => exact ⟨v, s, rfl⟩
      | none =>
        by_cases hmo : b.managerOk = true
        · simp only [hmo, if_true]
          exact ⟨(getOrCreateTryBody b s).1, (getOrCreateTryBody b s).2, rfl⟩
        · simp only [hmo, if_false]
          exact ⟨none, { s with registered := some none }, rfl⟩
  · intro h1 h2 h3
    simp [getOrCreateOnce, memHit, h1, h2, h3]
  · intro h1 h2 h3 h4
    constructor
    · intro e he
      simp [getOrCreateOnce, getOrCreateTryBody, createStage, memHit, h1, h2, h3, h4, he]
    · intro he
      simp [getOrCreateOnce, getOrCreateTryBody, createStage, memHit, h1, h2, h3, h4, he]
  · intro h1 h2 h3 k e e2 hk hre hrs
    simp [getOrCreateOnce, getOrCreateTryBody, removePersistentEntryModel, memHit,
      h1, h2, h3, hk, hre, hrs]

/-- Witness for C7: a concrete call on an empty state whose remote creation
throws resolves to null with one remote creation counted. -/
theorem c7_get_or_create_never_throws_witness :
    getOrCreateOnce ⟨true, .ok none, .ok (), .error "creation failed", .ok ()⟩
      ⟨none, none, none, 0⟩ = .ok (none, ⟨none, none, none, 1⟩) :=
  ((c7_get_or_create_never_throws
      ⟨true, .ok none, .ok (), .error "creation failed", .ok ()⟩
      ⟨none, none, none, 0⟩).2.2.1 rfl rfl rfl rfl).1 "creation failed" rfl

/-- A list is a prefix of itself followed by anything. -/
theorem isPrefixList_self_append : ∀ (n t : List Char), isPrefixList n (n ++ t) = true := by
  intro n
  induction n with
  | nil => intro t; rfl
  | cons a n ih => intro t; simp [isPrefixList, ih]

/-- A contiguous occurrence certifies the containment test. -/
theorem containsList_of_split (n : List Char) :
    ∀ (pre suf l : List Char), l = pre ++ (n ++ suf) → containsList n l = true := by
  intro pre
  induction pre with
  | nil =>
    intro suf l hl
    subst hl
    simp only [List.nil_append]
    cases hn : n ++ suf with
    | nil =>
      have hn2 : n = [] := by
        cases n with
        | nil => rfl
        | cons a t => simp at hn
      subst hn2
      rfl
    | cons c t =>
      simp only [containsList]
      rw [← hn, isPrefixList_self_append]
      simp
  | cons c pre ih =>
    intro suf l hl
    subst hl
    have h2 := ih suf (pre ++ (n ++ suf)) rfl
    simp only [List.cons_append, containsList]
    simp [h2]

/-- When `dropWhile` leaves part of the left list, appending on the right
commutes with it. -/
theorem dropWhile_append_left (p : Char → Bool) :
    ∀ (l1 l2 : List Char), l1.dropWhile p ≠ [] →
      (l1 ++ l2).dropWhile p = l1.dropWhile p ++ l2 := by
  intro l1
  induction l1 with
  | nil => intro l2 h; simp at h
  | cons a t ih =>
    intro l2 h
    by_cases hp : p a
    · simp only [List.dropWhile_cons, hp, if_true] at h
      simp only [List.cons_append, List.dropWhile_cons, hp, if_true]
      exact ih l2 h
    · simp only [List.dropWhile_cons, hp, if_false] at h ⊢
      simp [hp]

/-- When `dropWhile` consumes all of the left list, it continues in the
right one. -/
theorem dropWhile_append_nil (p : Char → Bool) :
    ∀ (l1 l2 : List Char), l1.dropWhile p = [] →
      (l1 ++ l2).dropWhile p = l2.dropWhile p := by
  intro l1
  induction l1 with
  | nil => intro l2 _; rfl
  | cons a t ih =>
    intro l2 h
    by_cases hp : p a
    · simp only [List.dropWhile_cons, hp, if_true] at h
      simp only [List.cons_append, List.dropWhile_cons, hp, if_true]
      exact ih l2 h
    · simp only [List.dropWhile_cons, hp, if_false] at h
      simp at h

/-- An element that fails the predicate survives `dropWhile`. -/
theorem mem_dropWhile_of_not (p : Char → Bool) :
    ∀ (l : List Char) (c : Char), c ∈ l → p c = false → c ∈ l.dropWhile p := by
  intro l
  induction l with
  | nil => intro c hc _; simp at hc
  | cons a t ih =>
    intro c hc hpc
    by_cases hp : p a
    · simp only [List.dropWhile_cons, hp, if_true]
      rcases List.mem_cons.mp hc with h | h
      · subst h; rw [hp] at hpc; simp at hpc
      · exact ih c h hpc
    · simpa [List.dropWhile_cons, hp] using hc

/-- Dropping the head preserves absence of a triple backtick. -/
theorem hasTripleBacktick_cons (c : Char) (l : List Char)
    (h : hasTripleBacktick (c :: l) = false) : hasTripleBacktick l = false := by
  simp only [hasTripleBacktick, containsList] at h ⊢
  exact (Bool.or_eq_false_iff.mp h).2

/-- The last element of a nonempty tail is the last element of the list. -/
theorem getLast?_cons_of_ne_nil (c : Char) (l : List Char) (h : l ≠ []) :
    (c :: l).getLast? = l.getLast? := by
  cases l with
  | nil => exact absurd rfl h
  | cons b t => simp

/-- A nonempty list has a last element. -/
theorem exists_getLast?_of_ne_nil (l : List Char) (h : l ≠ []) :
    ∃ c, l.getLast? = some c := by
  cases hM : l.getLast? with
  | none =>
    rw [List.getLast?_eq_none_iff] at hM
    exact absurd hM h
  | some c => exact ⟨c, rfl⟩

/-- The last element is a member. -/
theorem mem_of_getLast?_eq (l : List Char) (c : Char) (h : l.getLast? = some c) :
    c ∈ l := by
  induction l with
  | nil => simp at h
  | cons a t ih =>
    cases t with
    | nil => simp at h; simp [h]
    | cons b t2 =>
      rw [getLast?_cons_of_ne_nil a (b :: t2) (by simp)] at h
      exact List.mem_cons_of_mem a (ih h)

/-- The closing part of the fence regex never matches in the middle of a
text that contains no triple backtick and whose last character is not
whitespace; it can only fire on the closing newline-backticks tail itself. -/
theorem closingMatch_mid (M : List Char) (hne : M ≠ [])
    (hbt : hasTripleBacktick M = false)
    (hlast : ∀ c, M.getLast? = some c → isJsWs c = false) :
    closingMatch (M ++ fenceTail) = false := by
  have hu : M.dropWhile isJsWs ≠ [] := by
    intro h0
    have hall : ∀ x ∈ M, isJsWs x := List.dropWhile_eq_nil_iff.mp h0
    obtain ⟨c, hc⟩ := exists_getLast?_of_ne_nil M hne
    have := hall c (mem_of_getLast?_eq M c hc)
    rw [hlast c hc] at this
    simp at this
  have hdw : (M ++ fenceTail).dropWhile isJsWs = M.dropWhile isJsWs ++ fenceTail :=
    dropWhile_append_left _ _ _ hu
  have hsplit : M.takeWhile isJsWs ++ M.dropWhile isJsWs = M :=
    List.takeWhile_append_dropWhile isJsWs M
  cases hu3 : M.dropWhile isJsWs with
  | nil => exact absurd hu3 hu
  | cons a u1 =>
    rw [hu3] at hdw
    cases u1 with
    | nil =>
      have hnl : (('\n' : Char) == btick) = false := by decide
      simp only [closingMatch]
      rw [hdw]
      simp [fenceTail, hnl]
    | cons a2 u2 =>
      cases u2 with
      | nil =>
        have hnl : (('\n' : Char) == btick) = false := by decide
        simp only [closingMatch]
        rw [hdw]
        simp [fenceTail, hnl]
      | cons a3 u3 =>
        by_cases h3 : a = btick ∧ a2 = btick ∧ a3 = btick
        · exfalso
          obtain ⟨ha, hb, hc3⟩ := h3
          subst ha; subst hb; subst hc3
          have hM2 : M = M.takeWhile isJsWs ++ ([btick, btick, btick] ++ u3) := by
            conv_lhs => rw [← hsplit]
            rw [hu3]
            simp
          rw [hasTripleBacktick, containsList_of_split [btick, btick, btick]
            (M.takeWhile isJsWs) u3 M hM2] at hbt
          simp at hbt
        · by_cases ha : a = btick
          · by_cases hb : a2 = btick
            · have hc3 : ¬ a3 = btick := fun h => h3 ⟨ha, hb, h⟩
              have hf : (a3 == btick) = false := beq_eq_false_iff_ne.mpr hc3
              simp [closingMatch, hdw, hf]
            · have hf : (a2 == btick) = false := beq_eq_false_iff_ne.mpr hb
              simp [closingMatch, hdw, hf]
          · have hf : (a == btick) = false := beq_eq_false_iff_ne.mpr ha
            simp [closingMatch, hdw, hf]

/-- The lazy capture of the fence regex applied to a well-behaved text
followed by the closing tail captures exactly the text: no earlier position
allows the closing part to match. -/
theorem lazyContent_eq (M : List Char) (hne : M ≠ [])
    (hbt : hasTripleBacktick M = false)
    (hlast : ∀ c, M.getLast? = some c → isJsWs c = false) :
    lazyContent (M ++ fenceTail) = some M := by
  induction M with
  | nil => exact absurd rfl hne
  | cons c M2 ih =>
    have hclose : closingMatch ((c :: M2) ++ fenceTail) = false :=
      closingMatch_mid (c :: M2) hne hbt hlast
    cases M2 with
    | nil =>
      have htail : lazyContent fenceTail = some [] := by decide
      have hstep : lazyContent ((c :: []) ++ fenceTail) =
          if closingMatch ((c :: []) ++ fenceTail) = true then some []
          else (lazyContent fenceTail).map (fun g => c :: g) := rfl
      rw [hstep, hclose, htail]
      simp
    | cons d M3 =>
      have hbt2 : hasTripleBacktick (d :: M3) = false := hasTripleBacktick_cons c _ hbt
      have hlast2 : ∀ x, (d :: M3).getLast? = some x → isJsWs x = false := by
        intro x hx
        exact hlast x (by rw [getLast?_cons_of_ne_nil c (d :: M3) (by simp), hx])
      have ih2 := ih (by simp) hbt2 hlast2
      have hstep : lazyContent ((c :: d :: M3) ++ fenceTail) =
          if closingMatch ((c :: d :: M3) ++ fenceTail) = true then some []
          else (lazyContent ((d :: M3) ++ fenceTail)).map (fun g => c :: g) := rfl
      rw [hstep, hclose, ih2]
      simp

/-- Trimming is the identity on a text whose first and last characters are
not whitespace. -/
theorem jsTrim_eq_self (l : List Char)
    (hh : ∀ c, l.head? = some c → isJsWs c = false)
    (hl : ∀ c, l.getLast? = some c → isJsWs c = false) :
    jsTrim l = l := by
  cases l with
  | nil => rfl
  | cons a t =>
    have ha : isJsWs a = false := hh a rfl
    have h1 : (a :: t).dropWhile isJsWs = a :: t := by
      simp [List.dropWhile_cons, ha]
    rw [jsTrim, h1]
    cases hr : (a :: t).reverse with
    | nil => exact absurd hr (by simp)
    | cons b r2 =>
      have hb : (a :: t).getLast? = some b := by
        rw [← List.head?_reverse, hr]
        rfl
      have hbw : isJsWs b = false := hl b hb
      have h2 : (b :: r2).dropWhile isJsWs = b :: r2 := by
        simp [List.dropWhile_cons, hbw]
      rw [h2, ← hr, List.reverse_reverse]

/-- A text containing a non-whitespace character does not trim to empty. -/
theorem jsTrim_ne_nil (l : List Char) (c : Char) (hc : c ∈ l)
    (hw : isJsWs c = false) : jsTrim l ≠ [] := by
  intro h0
  rw [jsTrim, List.reverse_eq_nil_iff] at h0
  have h2 := List.dropWhile_eq_nil_iff.mp h0
  have h3 : c ∈ l.dropWhile isJsWs := mem_dropWhile_of_not isJsWs l c hc hw
  have h4 := h2 c (List.mem_reverse.mpr h3)
  rw [hw] at h4
  simp at h4

/-- The fence regex matches at position 0 of a wrapped well-behaved text,
capturing exactly the text. -/
theorem matchFenceAt_wrap (M : List Char) (hne : M ≠ [])
    (hbt : hasTripleBacktick M = false)
    (hh : ∀ c, M.head? = some c → isJsWs c = false)
    (hl : ∀ c, M.getLast? = some c → isJsWs c = false) :
    matchFenceAt (fencedWrap M) = some M := by
  cases M with
  | nil => exact absurd rfl hne
  | cons m0 mt =>
    have hm0 : isJsWs m0 = false := hh m0 rfl
    have hdw2 : ((m0 :: mt) ++ fenceTail).dropWhile isJsWs = (m0 :: mt) ++ fenceTail := by
      simp only [List.cons_append]
      simp [List.dropWhile_cons, hm0]
    have hnlws : isJsWs '\n' = true := by decide
    simp only [fencedWrap, matchFenceAt]
    rw [if_pos (by decide)]
    simp only [takeJsonTag]
    rw [if_pos (by decide)]
    rw [List.dropWhile_cons]
    rw [hnlws]
    simp only [if_true]
    rw [hdw2]
    exact lazyContent_eq (m0 :: mt) hne hbt hl

/-- The multiline scan finds the fence match at position 0 of the wrapped
text. -/
theorem fenceScanAux_wrap (M : List Char) (hne : M ≠ [])
    (hbt : hasTripleBacktick M = false)
    (hh : ∀ c, M.head? = some c → isJsWs c = false)
    (hl : ∀ c, M.getLast? = some c → isJsWs c = false) :
    fenceScanAux (fencedWrap M) true = some M := by
  have hm := matchFenceAt_wrap M hne hbt hh hl
  simp only [fencedWrap] at hm ⊢
  simp [fenceScanAux, hm]

/-- `stripMarkdownJsonWrapper` applied to the wrapped well-behaved text
returns exactly the text. -/
theorem strip_fencedWrap (M : List Char) (hne : M ≠ [])
    (hbt : hasTripleBacktick M = false)
    (hh : ∀ c, M.head? = some c → isJsWs c = false)
    (hl : ∀ c, M.getLast? = some c → isJsWs c = false) :
    stripMarkdownJsonWrapper (fencedWrap M) = M := by
  have hscan := fenceScanAux_wrap M hne hbt hh hl
  have htrim : jsTrim (fencedWrap M) ≠ [] :=
    jsTrim_ne_nil _ btick (by simp [fencedWrap]) (by decide)
  rw [stripMarkdownJsonWrapper, if_neg htrim, hscan]
  show (if M = [] then fencedWrap M else jsTrim M) = M
  rw [if_neg hne]
  exact jsTrim_eq_self M hh hl

/-- The last element of an append with a nonempty right part is the last
element of the right part. -/
theorem getLast?_append_right (l1 l2 : List Char) (h : l2 ≠ []) :
    (l1 ++ l2).getLast? = l2.getLast? := by
  induction l1 with
  | nil => rfl
  | cons a t ih =>
    have hne2 : t ++ l2 ≠ [] := by
      intro hx
      rcases List.append_eq_nil.mp hx with ⟨_, h2⟩
      exact h h2
    rw [List.cons_append, getLast?_cons_of_ne_nil a (t ++ l2) hne2, ih]

/-- A global trailing-comma replace pass is the identity on a text with no
match. -/
theorem fixCommaAux_id (close : Char) :
    ∀ l, hasCommaClose close l = false → fixCommaAux close l = l := by
  intro l
  induction l with
  | nil => intro _; rfl
  | cons c rest ih =>
    intro h
    simp only [hasCommaClose, Bool.or_eq_false_iff] at h
    obtain ⟨h1, h2⟩ := h
    simp [fixCommaAux, h1, ih h2]

/-- Inserting a single comma right before an occurrence of the closing
character into a text with no trailing-comma match creates exactly one
match, and the replace pass removes exactly that comma. -/
theorem fixCommaAux_insert (close : Char) (hcc : (close == ',') = false)
    (hcw : isJsWs close = false) :
    ∀ (A B : List Char), hasCommaClose close (A ++ close :: B) = false →
      fixCommaAux close (A ++ ',' :: close :: B) = A ++ close :: B := by
  intro A
  induction A with
  | nil =>
    intro B h
    simp only [List.nil_append] at h ⊢
    have hB : hasCommaClose close B = false := by
      simp only [hasCommaClose, Bool.or_eq_false_iff] at h
      exact h.2
    have hws : wsThenClose close (close :: B) = some ([], B) := by
      simp [wsThenClose, List.dropWhile_cons, List.takeWhile_cons, hcw]
    simp [fixCommaAux, hws, hcc, fixCommaAux_id close B hB]
  | cons a A2 ih =>
    intro B h
    simp only [List.cons_append, hasCommaClose, Bool.or_eq_false_iff, List.append_eq] at h
    obtain ⟨h1, h2⟩ := h
    by_cases ha : (a == ',') = true
    · have hsome : (wsThenClose close (A2 ++ close :: B)).isSome = false := by
        cases hv : (wsThenClose close (A2 ++ close :: B)).isSome
        · rfl
        · rw [ha, hv] at h1
          simp at h1
      have hnone : wsThenClose close (A2 ++ ',' :: close :: B) = none := by
        cases hu : A2.dropWhile isJsWs with
        | nil =>
          exfalso
          have hd : (A2 ++ close :: B).dropWhile isJsWs = (close :: B).dropWhile isJsWs :=
            dropWhile_append_nil _ _ _ hu
          have hd2 : (close :: B).dropWhile isJsWs = close :: B := by
            simp [List.dropWhile_cons, hcw]
          have hx : wsThenClose close (A2 ++ close :: B) =
              some ((A2 ++ close :: B).takeWhile isJsWs, B) := by
            rw [wsThenClose, hd, hd2]
            simp
          rw [hx] at hsome
          simp at hsome
        | cons d u2 =>
          have hd : (A2 ++ close :: B).dropWhile isJsWs = (d :: u2) ++ close :: B := by
            rw [dropWhile_append_left _ _ _ (by rw [hu]; simp), hu]
          have hdc : (d == close) = false := by
            cases hdc2 : (d == close) with
            | false => rfl
            | true =>
              exfalso
              have hx : wsThenClose close (A2 ++ close :: B) =
                  some ((A2 ++ close :: B).takeWhile isJsWs, u2 ++ close :: B) := by
                rw [wsThenClose, hd]
                simp [hdc2]
              rw [hx] at hsome
              simp at hsome
          have hd2 : (A2 ++ ',' :: close :: B).dropWhile isJsWs =
              (d :: u2) ++ ',' :: close :: B := by
            rw [dropWhile_append_left _ _ _ (by rw [hu]; simp), hu]
          rw [wsThenClose, hd2]
          simp [hdc]
      simp only [List.cons_append, fixCommaAux]
      simp [hnone, ih B h2]
    · have ha2 : (a == ',') = false := by simpa using ha
      simp only [List.cons_append, fixCommaAux]
      simp [ha2, ih B h2]

/-- Claim C8 (round trip): take a JSON object text `J = A ++ closing-brace
:: B` that starts with an opening brace, ends with a closing brace, contains
no internal fenced-block artifact (no triple backtick) and no internal
trailing-comma artifact (no comma followed by whitespace and a closing brace
or bracket).  Wrap it in a fenced json block and insert a single trailing
comma immediately before the closing brace at the split point.  Then the
processing pipeline (markdown-strip followed by comma repair) yields exactly
`J` back, so the processed text parses to the same JSON value as `J`
itself. -/
theorem c8_round_trip (A B : List Char)
    (hA : A.head? = some braceOpen)
    (hBlast : B = [] ∨ B.getLast? = some braceClose)
    (hbt : hasTripleBacktick (A ++ ',' :: braceClose :: B) = false)
    (h1 : hasCommaClose braceClose (A ++ braceClose :: B) = false)
    (h2 : hasCommaClose ']' (A ++ braceClose :: B) = false) :
    processResponseText (fencedWrap (A ++ ',' :: braceClose :: B)) =
      A ++ braceClose :: B := by
  have hne : A ++ ',' :: braceClose :: B ≠ [] := by
    intro hx
    rcases List.append_eq_nil.mp hx with ⟨_, hx2⟩
    simp at hx2
  have hh : ∀ c, (A ++ ',' :: braceClose :: B).head? = some c → isJsWs c = false := by
    intro c hc
    obtain ⟨a, A2, rfl⟩ : ∃ a A2, A = a :: A2 := by
      cases A with
      | nil => simp at hA
      | cons a A2 => exact ⟨a, A2, rfl⟩
    have ha : a = braceOpen := by simpa using hA
    subst ha
    have hcb : braceOpen = c := by simpa using hc
    subst hcb
    decide
  have hlastM : (A ++ ',' :: braceClose :: B).getLast? = some braceClose := by
    rcases hBlast with hB0 | hBl
    · subst hB0
      have hx : A ++ ',' :: braceClose :: ([] : List Char) = (A ++ [',']) ++ [braceClose] := by
        simp
      rw [hx, List.getLast?_concat]
    · have hBne : B ≠ [] := by
        intro hx
        rw [hx] at hBl
        simp at hBl
      rw [getLast?_append_right A _ (by simp),
        getLast?_cons_of_ne_nil ',' _ (by simp),
        getLast?_cons_of_ne_nil braceClose B hBne]
      exact hBl
  have hl : ∀ c, (A ++ ',' :: braceClose :: B).getLast? = some c → isJsWs c = false := by
    intro c hc
    rw [hlastM] at hc
    have hcb : c = braceClose := (Option.some.inj hc).symm
    subst hcb
    decide
  have hstrip := strip_fencedWrap _ hne hbt hh hl
  have htrim : jsTrim (A ++ ',' :: braceClose :: B) = A ++ ',' :: braceClose :: B :=
    jsTrim_eq_self _ hh hl
  have hlen : 0 < (jsTrim (A ++ ',' :: braceClose :: B)).length := by
    rw [htrim]
    cases A <;> simp
  simp only [processResponseText]
  rw [hstrip, if_pos hlen]
  rw [fixCommaAux_insert braceClose (by decide) (by decide) A B h1]
  exact fixCommaAux_id ']' _ h2

/-- Witness for C8 at a concrete two-character object body. -/
theorem c8_round_trip_witness :
    processResponseText (fencedWrap ([braceOpen, 'x'] ++ ',' :: braceClose :: [])) =
      [braceOpen, 'x'] ++ braceClose :: [] :=
  c8_round_trip [braceOpen, 'x'] [] rfl (Or.inl rfl) (by decide) (by decide) (by decide)

end SubVps
